import Mathlib

/-!
A shallow embedding of the nixd language-server controller
(src/nixd/lib/Server/Controller.cpp) and of the recursive AST visitor
(src/nixd/include/nixd/Expr/Expr.h), together with theorems about the
behaviour of the embedded operations.

Conventions of the embedding:
* C++ machine integers that matter for control flow are modelled as Nat,
  with explicit wrap-around modulo 2^64 where the source relies on
  unsigned arithmetic (the size_t cursor in onDecalration).
* Side effects (outgoing notifications, scheduled parses, forked workers)
  are recorded in an append-only trace inside the server state, so that
  ordering claims can be stated as equalities on the trace.
* Code that can crash (dereference of an empty optional, out-of-bounds
  StringRef indexing) is modelled with Except or an explicit crash value.
* Helpers that live in headers of this repository outside the provided
  sources (removeDocument, decodeVersion, askWC, latestMatchOr,
  withParseAST, the Nodes.inc variant list) are modelled from the spec;
  each such definition carries a doc comment saying so.
-/

/-- LSP position: zero-based line and character. -/
structure Position where
  line : Nat
  character : Nat
deriving DecidableEq

/-- LSP range: start and end position; the field named end in the protocol
is called finish here because end is a Lean keyword. -/
structure Range where
  start : Position
  finish : Position
deriving DecidableEq

/-- LSP location: a document URI together with a range inside it. -/
structure Location where
  uri : String
  range : Range
deriving DecidableEq

/-- LSP text edit: replace the given range with newText. -/
structure TextEdit where
  range : Range
  newText : String
deriving DecidableEq

/-- A single diagnostic; only the message matters for the claims. -/
structure Diagnostic where
  message : String
deriving DecidableEq

/-- Parameters of a textDocument/publishDiagnostics notification. -/
structure PublishDiagnosticsParams where
  uri : String
  diagnostics : List Diagnostic
  version : Option Int
deriving DecidableEq

/-- Hover contents (the markup value string). -/
structure Hover where
  contents : String
deriving DecidableEq

/-- LSP completion list. Items are reduced to their labels. -/
structure CompletionList where
  isIncomplete : Bool
  items : List String
deriving DecidableEq

/-- Outcome of an LSP request handler: a JSON response or a JSON-RPC error
visible to the client. -/
inductive LspReply (α : Type) where
  | response (v : α)
  | error (msg : String)
deriving DecidableEq

/-- Whether a reply is a normal response (not a user-visible error). -/
def LspReply.isResponse {α : Type} : LspReply α → Bool
  | .response _ => true
  | .error _ => false

--------------------------------------------------------------------------
-- DiagnosticsMux: Server::onEvalDiagnostic (Controller.cpp:638-660)

/-- Payload of the nixd/ipc/diagnostic worker notification: a batch of
publishDiagnostics parameters tagged with the workspace version of the
worker that produced them. -/
structure IpcDiagnostics where
  WorkspaceVersion : Nat
  Params : List PublishDiagnosticsParams
deriving DecidableEq

/-- The controller-side diagnostic status guarded by DiagStatusLock:
the currently published workspace version and the last batch that was
forwarded to the client. -/
structure DiagnosticStatus where
  WorkspaceVersion : Nat
  ClientDiags : List PublishDiagnosticsParams
deriving DecidableEq

/-- Server::clearDiagnostic: an empty-diagnostics notification for a URI
(Controller.cpp:631-636). The version field of the notification is left
unset. -/
def clearDiagnostic (uri : String) : PublishDiagnosticsParams :=
  { uri := uri, diagnostics := [], version := none }

/-- Server::onEvalDiagnostic (Controller.cpp:638-660). Returns the updated
status together with the publishDiagnostics notifications emitted to the
client, in order: if the batch is older than the published version it is
dropped; otherwise the published version becomes the batch version, every
URI of the previous batch is cleared, then the new batch is emitted. -/
def onEvalDiagnostic (st : DiagnosticStatus) (Diag : IpcDiagnostics) :
    DiagnosticStatus × List PublishDiagnosticsParams :=
  if st.WorkspaceVersion > Diag.WorkspaceVersion then
    (st, [])
  else
    ({ WorkspaceVersion := Diag.WorkspaceVersion, ClientDiags := Diag.Params },
     st.ClientDiags.map (fun p => clearDiagnostic p.uri) ++ Diag.Params)

/-- Versions backing the batches that actually reach the client when a
sequence of worker batches is processed in order from a given status. -/
def emittedVersions : DiagnosticStatus → List IpcDiagnostics → List Nat
  | _, [] => []
  | st, d :: ds =>
    if st.WorkspaceVersion > d.WorkspaceVersion then
      emittedVersions (onEvalDiagnostic st d).1 ds
    else
      d.WorkspaceVersion :: emittedVersions (onEvalDiagnostic st d).1 ds

lemma onEvalDiagnostic_drop (st : DiagnosticStatus) (d : IpcDiagnostics)
    (h : d.WorkspaceVersion < st.WorkspaceVersion) :
    onEvalDiagnostic st d = (st, []) := by
  simp [onEvalDiagnostic, h]

lemma onEvalDiagnostic_accept (st : DiagnosticStatus) (d : IpcDiagnostics)
    (h : st.WorkspaceVersion ≤ d.WorkspaceVersion) :
    onEvalDiagnostic st d =
      ({ WorkspaceVersion := d.WorkspaceVersion, ClientDiags := d.Params },
       st.ClientDiags.map (fun p => clearDiagnostic p.uri) ++ d.Params) := by
  simp [onEvalDiagnostic, Nat.not_lt.mpr h]

lemma emittedVersions_chain (ds : List IpcDiagnostics) (st : DiagnosticStatus) :
    List.Chain (fun a b => a ≤ b) st.WorkspaceVersion (emittedVersions st ds) := by
  induction ds generalizing st with
  | nil => exact List.Chain.nil
  | cons d ds ih =>
    by_cases h : st.WorkspaceVersion > d.WorkspaceVersion
    · have hdrop : onEvalDiagnostic st d = (st, []) := onEvalDiagnostic_drop st d h
      simp only [emittedVersions, if_pos h, hdrop]
      exact ih st
    · have hle : st.WorkspaceVersion ≤ d.WorkspaceVersion := Nat.not_lt.mp h
      have hacc := onEvalDiagnostic_accept st d hle
      simp only [emittedVersions, if_neg h, hacc]
      exact List.Chain.cons hle
        (ih { WorkspaceVersion := d.WorkspaceVersion, ClientDiags := d.Params })

/-- C1: a diagnostic batch tagged with workerVersion is dropped exactly when
workerVersion is strictly below the published version; otherwise the
published version becomes workerVersion, an empty-diagnostics notification
is emitted for every URI of the previously published batch and then the new
batch is emitted; hence along any sequence of incoming batches the versions
of the batches the client observes never decrease. -/
theorem C1_diagnostics_mux (st : DiagnosticStatus) (d : IpcDiagnostics)
    (ds : List IpcDiagnostics) :
    (d.WorkspaceVersion < st.WorkspaceVersion → onEvalDiagnostic st d = (st, [])) ∧
    (st.WorkspaceVersion ≤ d.WorkspaceVersion →
      onEvalDiagnostic st d =
        ({ WorkspaceVersion := d.WorkspaceVersion, ClientDiags := d.Params },
         st.ClientDiags.map (fun p => clearDiagnostic p.uri) ++ d.Params)) ∧
    List.Chain (fun a b => a ≤ b) st.WorkspaceVersion (emittedVersions st ds) :=
  ⟨onEvalDiagnostic_drop st d, onEvalDiagnostic_accept st d,
   emittedVersions_chain ds st⟩

/-- A concrete mux status with one previously published URI. -/
def diagStX : DiagnosticStatus :=
  { WorkspaceVersion := 5,
    ClientDiags := [{ uri := "file-a", diagnostics := [{ message := "m" }],
                      version := none }] }

/-- A stale batch (version 3 < 5). -/
def diagLow : IpcDiagnostics := { WorkspaceVersion := 3, Params := [] }

/-- A fresh batch (version 7 ≥ 5). -/
def diagHigh : IpcDiagnostics :=
  { WorkspaceVersion := 7,
    Params := [{ uri := "file-b", diagnostics := [], version := some 7 }] }

theorem C1_diagnostics_mux_witness :
    onEvalDiagnostic diagStX diagLow = (diagStX, []) ∧
    onEvalDiagnostic diagStX diagHigh =
      ({ WorkspaceVersion := diagHigh.WorkspaceVersion,
         ClientDiags := diagHigh.Params },
       diagStX.ClientDiags.map (fun p => clearDiagnostic p.uri) ++ diagHigh.Params) ∧
    List.Chain (fun a b => a ≤ b) diagStX.WorkspaceVersion
      (emittedVersions diagStX [diagLow, diagHigh]) :=
  ⟨(C1_diagnostics_mux diagStX diagLow []).1 (by decide),
   (C1_diagnostics_mux diagStX diagHigh []).2.1 (by decide),
   (C1_diagnostics_mux diagStX diagLow [diagLow, diagHigh]).2.2⟩

--------------------------------------------------------------------------
-- DraftStore and the document-synchronization notifications
-- (Controller.cpp:115-139, 192-202, 295-332)

/-- A stored draft: authoritative contents plus the protocol version string
under which they were received. -/
structure Draft where
  Contents : String
  Version : String
deriving DecidableEq

/-- Snapshot read of the draft map (DraftStore::getDraft). -/
def lookupDraft : List (String × Draft) → String → Option Draft
  | [], _ => none
  | (k, v) :: rest, file => if k = file then some v else lookupDraft rest file

/-- DraftStore::removeDraft: forget the draft for a path. -/
def eraseDraft (drafts : List (String × Draft)) (file : String) :
    List (String × Draft) :=
  drafts.filter (fun kv => kv.1 != file)

/-- DraftStore::addDraft: overwrite any prior draft for the path. -/
def insertDraft (drafts : List (String × Draft)) (file : String) (d : Draft) :
    List (String × Draft) :=
  (file, d) :: eraseDraft drafts file

/-- Modelled from the spec: DraftStore::decodeVersion (declared outside the
provided sources) parses the protocol version string into an optional
64-bit integer; the empty string means absent (spec section 4.2). -/
def decodeVersion (v : String) : Option Int :=
  if v = "" then none else v.toInt?

/-- Server::encodeVersion (Controller.cpp:192-194). -/
def encodeVersion : Option Int → String
  | some v => toString v
  | none => ""

/-- Modelled from the spec: one LSP-style content change, either a range
replacement or a whole-document replacement (spec section 4.2). Ranges are
reduced to byte offsets, which is all the claims need. -/
inductive Change where
  | wholeDoc (text : String)
  | rangeChange (start len : Nat) (text : String)
deriving DecidableEq

/-- Modelled from the spec: applyChange applies one content change and
fails with InvalidRange when the range does not fit the text
(spec section 4.2). -/
def applyChange (code : String) : Change → Except Unit String
  | .wholeDoc text => .ok text
  | .rangeChange start len text =>
    if start + len ≤ code.length then
      .ok ((code.toList.take start ++ text.toList ++
            code.toList.drop (start + len)).asString)
    else
      .error ()

/-- The loop of Server::onDocumentDidChange (Controller.cpp:314-323):
apply the changes in order, stopping at the first failure. -/
def applyChanges (code : String) (changes : List Change) : Except Unit String :=
  changes.foldlM applyChange code

/-- One entry of the outgoing-effect trace of the controller. -/
inductive Effect where
  | publishDiagnostics (p : PublishDiagnosticsParams)
  | addDraft (file version contents : String)
  | schedParse (contents file : String) (version : Int)
  | removeDraft (file : String)
  | forkEvalWorker (snapshotVersion : Nat)
deriving DecidableEq

/-- The controller state used by the document-synchronization handlers.
DiagStatus is the DiagnosticsMux state; it is carried along to show that
addDocument never consults it. The trace records outgoing effects in
order. -/
structure ServerState where
  isController : Bool
  WorkspaceVersion : Nat
  drafts : List (String × Draft)
  EvalWorkers : List Nat
  evalWorkersSize : Nat
  optionsEnable : Bool
  WaitWorker : Bool
  DiagStatus : DiagnosticStatus
  trace : List Effect
deriving DecidableEq

/-- Modelled from the spec: URIForFile canonicalization is an external
collaborator; drafts and diagnostics are keyed by the canonicalized path,
modelled here as the path itself. -/
def canonicalize (file : String) : String := file

/-- Server::forkWorker for the eval pool (Controller.cpp:48-113): push a
worker carrying the current WorkspaceVersion, then FIFO-evict past the
configured pool size unless in wait-for-workers mode. Only the controller
role forks. -/
def forkWorker (s : ServerState) : ServerState :=
  if s.isController = false then s
  else
    let pool := s.EvalWorkers ++ [s.WorkspaceVersion]
    let pool2 := if s.evalWorkersSize < pool.length && !s.WaitWorker
                 then pool.tail else pool
    { s with EvalWorkers := pool2,
             trace := s.trace ++ [Effect.forkEvalWorker s.WorkspaceVersion] }

/-- Server::updateWorkspaceVersion (Controller.cpp:115-123): increment the
counter and fork a fresh eval worker; a no-op outside the controller
role. -/
def updateWorkspaceVersion (s : ServerState) : ServerState :=
  if s.isController = false then s
  else forkWorker { s with WorkspaceVersion := s.WorkspaceVersion + 1 }

/-- Server::addDocument (Controller.cpp:125-139): first publish an empty
diagnostics notification for the file tagged with the decoded version,
then store the draft, schedule a parse, and bump the workspace version. -/
def addDocument (s : ServerState) (File Contents Version : String) :
    ServerState :=
  let IVersion := decodeVersion Version
  let s1 := { s with
    trace := s.trace ++
      [Effect.publishDiagnostics
        { uri := canonicalize File, diagnostics := [], version := IVersion }] }
  let s2 := { s1 with
    drafts := insertDraft s1.drafts File { Contents := Contents, Version := Version },
    trace := s1.trace ++ [Effect.addDraft File Version Contents] }
  let s3 := { s2 with
    trace := s2.trace ++ [Effect.schedParse Contents File (IVersion.getD 0)] }
  updateWorkspaceVersion s3

/-- Modelled from the spec: Server::removeDocument is declared in a header
outside the provided sources. It forgets the draft for the path and, close
being a mutating notification, bumps the workspace version and spawns a
fresh evaluator worker (spec section 2 data flow, section 3
WorkspaceVersion). -/
def removeDocument (s : ServerState) (file : String) : ServerState :=
  updateWorkspaceVersion
    { s with drafts := eraseDraft s.drafts file,
             trace := s.trace ++ [Effect.removeDraft file] }

/-- Parameters of textDocument/didOpen, reduced to the fields the handler
reads. -/
structure DidOpenTextDocumentParams where
  file : String
  text : String
  version : Option Int
deriving DecidableEq

/-- Parameters of textDocument/didChange, reduced to the fields the handler
reads. -/
structure DidChangeTextDocumentParams where
  file : String
  version : Option Int
  contentChanges : List Change
deriving DecidableEq

/-- Parameters of textDocument/didClose. -/
structure DidCloseTextDocumentParams where
  file : String
deriving DecidableEq

/-- Server::onDocumentDidOpen (Controller.cpp:295-302). -/
def onDocumentDidOpen (s : ServerState) (p : DidOpenTextDocumentParams) :
    ServerState :=
  addDocument s p.file p.text (encodeVersion p.version)

/-- Server::onDocumentDidChange (Controller.cpp:304-325): with no stored
draft the notification is only logged; if some change fails to apply the
draft is removed; otherwise the fully edited text is stored via
addDocument. -/
def onDocumentDidChange (s : ServerState) (p : DidChangeTextDocumentParams) :
    ServerState :=
  match lookupDraft s.drafts p.file with
  | none => s
  | some code =>
    match applyChanges code.Contents p.contentChanges with
    | .error _ => removeDocument s p.file
    | .ok newCode => addDocument s p.file newCode (encodeVersion p.version)

/-- Server::onDocumentDidClose (Controller.cpp:327-332). -/
def onDocumentDidClose (s : ServerState) (p : DidCloseTextDocumentParams) :
    ServerState :=
  removeDocument s p.file

lemma forkWorker_version (s : ServerState) :
    (forkWorker s).WorkspaceVersion = s.WorkspaceVersion := by
  unfold forkWorker
  by_cases h : s.isController = false <;> simp [h]

lemma forkWorker_drafts (s : ServerState) :
    (forkWorker s).drafts = s.drafts := by
  unfold forkWorker
  by_cases h : s.isController = false <;> simp [h]

lemma forkWorker_trace (s : ServerState) (hC : s.isController = true) :
    (forkWorker s).trace =
      s.trace ++ [Effect.forkEvalWorker s.WorkspaceVersion] := by
  unfold forkWorker
  simp [hC]

lemma updateWorkspaceVersion_version (s : ServerState)
    (hC : s.isController = true) :
    (updateWorkspaceVersion s).WorkspaceVersion = s.WorkspaceVersion + 1 := by
  unfold updateWorkspaceVersion
  simp [hC, forkWorker_version]

lemma updateWorkspaceVersion_drafts (s : ServerState) :
    (updateWorkspaceVersion s).drafts = s.drafts := by
  unfold updateWorkspaceVersion
  by_cases h : s.isController = false
  · simp [h]
  · simp [h, forkWorker_drafts]

lemma updateWorkspaceVersion_trace (s : ServerState)
    (hC : s.isController = true) :
    (updateWorkspaceVersion s).trace =
      s.trace ++ [Effect.forkEvalWorker (s.WorkspaceVersion + 1)] := by
  unfold updateWorkspaceVersion
  rw [if_neg (by simp [hC])]
  rw [forkWorker_trace _ (by simp [hC])]

lemma updateWorkspaceVersion_monotone (s : ServerState) :
    s.WorkspaceVersion ≤ (updateWorkspaceVersion s).WorkspaceVersion := by
  unfold updateWorkspaceVersion
  by_cases h : s.isController = false
  · simp [h]
  · simp [h, forkWorker_version]

lemma addDocument_version (s : ServerState) (hC : s.isController = true)
    (File Contents Version : String) :
    (addDocument s File Contents Version).WorkspaceVersion =
      s.WorkspaceVersion + 1 := by
  unfold addDocument
  rw [updateWorkspaceVersion_version _ (by simp [hC])]

lemma addDocument_trace (s : ServerState) (hC : s.isController = true)
    (File Contents Version : String) :
    (addDocument s File Contents Version).trace =
      s.trace ++
        [Effect.publishDiagnostics
           { uri := canonicalize File, diagnostics := [],
             version := decodeVersion Version },
         Effect.addDraft File Version Contents,
         Effect.schedParse Contents File ((decodeVersion Version).getD 0),
         Effect.forkEvalWorker (s.WorkspaceVersion + 1)] := by
  unfold addDocument
  rw [updateWorkspaceVersion_trace _ (by simp [hC])]
  simp

lemma addDocument_drafts (s : ServerState) (File Contents Version : String) :
    (addDocument s File Contents Version).drafts =
      insertDraft s.drafts File { Contents := Contents, Version := Version } := by
  unfold addDocument
  rw [updateWorkspaceVersion_drafts]

lemma removeDocument_version (s : ServerState) (hC : s.isController = true)
    (file : String) :
    (removeDocument s file).WorkspaceVersion = s.WorkspaceVersion + 1 := by
  unfold removeDocument
  rw [updateWorkspaceVersion_version _ (by simp [hC])]

lemma removeDocument_trace (s : ServerState) (hC : s.isController = true)
    (file : String) :
    (removeDocument s file).trace =
      s.trace ++ [Effect.removeDraft file,
                  Effect.forkEvalWorker (s.WorkspaceVersion + 1)] := by
  unfold removeDocument
  rw [updateWorkspaceVersion_trace _ (by simp [hC])]
  simp

lemma removeDocument_drafts (s : ServerState) (file : String) :
    (removeDocument s file).drafts = eraseDraft s.drafts file := by
  unfold removeDocument
  rw [updateWorkspaceVersion_drafts]

lemma lookupDraft_erase (drafts : List (String × Draft)) (file : String) :
    lookupDraft (eraseDraft drafts file) file = none := by
  induction drafts with
  | nil => rfl
  | cons kv rest ih =>
    by_cases h : kv.1 = file
    · simpa [eraseDraft, h] using ih
    · simpa [eraseDraft, lookupDraft, h] using ih

lemma lookupDraft_insert (drafts : List (String × Draft)) (file : String)
    (d : Draft) :
    lookupDraft (insertDraft drafts file d) file = some d := by
  simp [insertDraft, lookupDraft]

--------------------------------------------------------------------------
-- Claims C2, C3, C10 about the document-synchronization handlers

/-- A concrete controller state with no stored drafts. -/
def baseState : ServerState :=
  { isController := true, WorkspaceVersion := 0, drafts := [],
    EvalWorkers := [], evalWorkersSize := 2, optionsEnable := true,
    WaitWorker := false,
    DiagStatus := { WorkspaceVersion := 0, ClientDiags := [] },
    trace := [] }

/-- A concrete controller state with one open draft for a.nix. -/
def openState : ServerState :=
  { baseState with
      drafts := [("a.nix", { Contents := "x", Version := "1" })] }

/-- A didChange whose single range change does not fit the one-character
draft of openState. -/
def badChangeParams : DidChangeTextDocumentParams :=
  { file := "a.nix", version := some 2,
    contentChanges := [Change.rangeChange 5 1 "y"] }

/-- A didChange on a path that was never opened. -/
def unknownChangeParams : DidChangeTextDocumentParams :=
  { file := "b.nix", version := some 2,
    contentChanges := [Change.wholeDoc "y"] }

/-- C2 counterexample: a didChange notification on a path with no stored
draft leaves the WorkspaceVersion counter unchanged, so it does not
increment it exactly once (Controller.cpp:308-312 returns after logging). -/
theorem C2_counterexample :
    ((onDocumentDidChange baseState unknownChangeParams).WorkspaceVersion ==
      baseState.WorkspaceVersion + 1) = false ∧
    onDocumentDidChange baseState unknownChangeParams = baseState := by
  constructor
  · decide
  · rfl

/-- C2 (amended): every didOpen and didClose, and every didChange that finds
a stored draft, increments the WorkspaceVersion counter exactly once and
forks a fresh evaluator worker carrying the new version; a didChange on a
path with no stored draft leaves the state unchanged; in all cases the
counter never decreases. -/
theorem C2_workspace_version (s : ServerState) (hC : s.isController = true)
    (o : DidOpenTextDocumentParams) (c : DidChangeTextDocumentParams)
    (x : DidCloseTextDocumentParams) :
    ((onDocumentDidOpen s o).WorkspaceVersion = s.WorkspaceVersion + 1 ∧
      (onDocumentDidOpen s o).trace.getLast? =
        some (Effect.forkEvalWorker (s.WorkspaceVersion + 1))) ∧
    ((onDocumentDidClose s x).WorkspaceVersion = s.WorkspaceVersion + 1 ∧
      (onDocumentDidClose s x).trace.getLast? =
        some (Effect.forkEvalWorker (s.WorkspaceVersion + 1))) ∧
    (lookupDraft s.drafts c.file = none → onDocumentDidChange s c = s) ∧
    (∀ dr, lookupDraft s.drafts c.file = some dr →
      (onDocumentDidChange s c).WorkspaceVersion = s.WorkspaceVersion + 1 ∧
      (onDocumentDidChange s c).trace.getLast? =
        some (Effect.forkEvalWorker (s.WorkspaceVersion + 1))) ∧
    s.WorkspaceVersion ≤ (onDocumentDidChange s c).WorkspaceVersion := by
  refine ⟨⟨?_, ?_⟩, ⟨?_, ?_⟩, ?_, ?_, ?_⟩
  · exact addDocument_version s hC _ _ _
  · rw [onDocumentDidOpen, addDocument_trace s hC]
    simp
  · exact removeDocument_version s hC _
  · rw [onDocumentDidClose, removeDocument_trace s hC]
    simp
  · intro h
    simp [onDocumentDidChange, h]
  · intro dr h
    cases happ : applyChanges dr.Contents c.contentChanges with
    | error e =>
      have hstep : onDocumentDidChange s c = removeDocument s c.file := by
        simp only [onDocumentDidChange, h, happ]
      rw [hstep]
      refine ⟨removeDocument_version s hC _, ?_⟩
      rw [removeDocument_trace s hC]
      simp
    | ok newCode =>
      have hstep : onDocumentDidChange s c =
          addDocument s c.file newCode (encodeVersion c.version) := by
        simp only [onDocumentDidChange, h, happ]
      rw [hstep]
      refine ⟨addDocument_version s hC _ _ _, ?_⟩
      rw [addDocument_trace s hC]
      simp
  · cases h : lookupDraft s.drafts c.file with
    | none => simp [onDocumentDidChange, h]
    | some dr =>
      cases happ : applyChanges dr.Contents c.contentChanges with
      | error e =>
        have hstep : onDocumentDidChange s c = removeDocument s c.file := by
          simp only [onDocumentDidChange, h, happ]
        rw [hstep, removeDocument_version s hC]
        exact Nat.le_succ _
      | ok newCode =>
        have hstep : onDocumentDidChange s c =
            addDocument s c.file newCode (encodeVersion c.version) := by
          simp only [onDocumentDidChange, h, happ]
        rw [hstep, addDocument_version s hC]
        exact Nat.le_succ _

theorem C2_workspace_version_witness :
    ((onDocumentDidOpen baseState
        { file := "a.nix", text := "x", version := some 1 }).WorkspaceVersion =
          baseState.WorkspaceVersion + 1 ∧
      (onDocumentDidOpen baseState
        { file := "a.nix", text := "x", version := some 1 }).trace.getLast? =
          some (Effect.forkEvalWorker (baseState.WorkspaceVersion + 1))) ∧
    ((onDocumentDidClose baseState { file := "a.nix" }).WorkspaceVersion =
        baseState.WorkspaceVersion + 1 ∧
      (onDocumentDidClose baseState { file := "a.nix" }).trace.getLast? =
        some (Effect.forkEvalWorker (baseState.WorkspaceVersion + 1))) ∧
    onDocumentDidChange baseState unknownChangeParams = baseState ∧
    ((onDocumentDidChange openState badChangeParams).WorkspaceVersion =
        openState.WorkspaceVersion + 1 ∧
      (onDocumentDidChange openState badChangeParams).trace.getLast? =
        some (Effect.forkEvalWorker (openState.WorkspaceVersion + 1))) ∧
    baseState.WorkspaceVersion ≤
      (onDocumentDidChange baseState unknownChangeParams).WorkspaceVersion := by
  have h1 := C2_workspace_version baseState rfl
    { file := "a.nix", text := "x", version := some 1 }
    unknownChangeParams { file := "a.nix" }
  have h2 := C2_workspace_version openState rfl
    { file := "a.nix", text := "x", version := some 1 }
    badChangeParams { file := "a.nix" }
  exact ⟨h1.1, h1.2.1, h1.2.2.1 (by decide),
         h2.2.2.2.1 { Contents := "x", Version := "1" } (by decide),
         h1.2.2.2.2⟩

/-- C3 counterexample: on a didChange whose change fails to apply, the
workspace version does change (the draft removal is itself a mutating
operation), so the conjunct of the claim that no version bump happens for
that notification is false. -/
theorem C3_counterexample :
    ((onDocumentDidChange openState badChangeParams).WorkspaceVersion ==
      openState.WorkspaceVersion) = false ∧
    (onDocumentDidChange openState badChangeParams).WorkspaceVersion = 1 ∧
    openState.WorkspaceVersion = 0 := by
  refine ⟨by decide, by decide, rfl⟩

/-- C3 (amended): for every didChange on an open draft, if applying any one
of the content changes fails, the handler removes the draft for that path,
does not store the new text, and schedules no parse for that notification;
the draft removal itself bumps the workspace version once and forks a
worker. If all changes apply, the fully edited text is stored under the
notification version. -/
theorem C3_didChange_failure (s : ServerState) (hC : s.isController = true)
    (p : DidChangeTextDocumentParams) (dr : Draft)
    (hdr : lookupDraft s.drafts p.file = some dr) :
    (∀ e, applyChanges dr.Contents p.contentChanges = .error e →
      onDocumentDidChange s p = removeDocument s p.file ∧
      lookupDraft (onDocumentDidChange s p).drafts p.file = none ∧
      (onDocumentDidChange s p).trace =
        s.trace ++ [Effect.removeDraft p.file,
                    Effect.forkEvalWorker (s.WorkspaceVersion + 1)] ∧
      (onDocumentDidChange s p).WorkspaceVersion = s.WorkspaceVersion + 1) ∧
    (∀ newCode, applyChanges dr.Contents p.contentChanges = .ok newCode →
      lookupDraft (onDocumentDidChange s p).drafts p.file =
        some { Contents := newCode, Version := encodeVersion p.version }) := by
  constructor
  · intro e he
    have hstep : onDocumentDidChange s p = removeDocument s p.file := by
      simp only [onDocumentDidChange, hdr, he]
    refine ⟨hstep, ?_, ?_, ?_⟩
    · rw [hstep, removeDocument_drafts, lookupDraft_erase]
    · rw [hstep, removeDocument_trace s hC]
    · rw [hstep, removeDocument_version s hC]
  · intro newCode hok
    have hstep : onDocumentDidChange s p =
        addDocument s p.file newCode (encodeVersion p.version) := by
      simp only [onDocumentDidChange, hdr, hok]
    rw [hstep, addDocument_drafts, lookupDraft_insert]

/-- A didChange on the open draft of openState whose changes all apply. -/
def goodChangeParams : DidChangeTextDocumentParams :=
  { file := "a.nix", version := some 2,
    contentChanges := [Change.wholeDoc "ab", Change.rangeChange 1 1 "c"] }

theorem C3_didChange_failure_witness :
    (onDocumentDidChange openState badChangeParams =
        removeDocument openState "a.nix" ∧
      lookupDraft (onDocumentDidChange openState badChangeParams).drafts
        "a.nix" = none ∧
      (onDocumentDidChange openState badChangeParams).trace =
        openState.trace ++
          [Effect.removeDraft "a.nix",
           Effect.forkEvalWorker (openState.WorkspaceVersion + 1)] ∧
      (onDocumentDidChange openState badChangeParams).WorkspaceVersion =
        openState.WorkspaceVersion + 1) ∧
    lookupDraft (onDocumentDidChange openState goodChangeParams).drafts
      "a.nix" = some { Contents := "ac", Version := encodeVersion (some 2) } := by
  have h1 := C3_didChange_failure openState rfl badChangeParams
    { Contents := "x", Version := "1" } (by decide)
  have h2 := C3_didChange_failure openState rfl goodChangeParams
    { Contents := "x", Version := "1" } (by decide)
  exact ⟨h1.1 () (by rfl), h2.2 "ac" (by rfl)⟩

/-- C10: addDocument, called by every didOpen and every successfully applied
didChange, first publishes an empty publishDiagnostics notification for the
URI of the file, tagged with the decoded version, before storing the draft,
scheduling the parse and bumping the workspace version; the emitted trace is
the same whatever the DiagnosticsMux status holds, so the published version
of the mux is not consulted. -/
theorem C10_clear_on_update (s : ServerState) (hC : s.isController = true)
    (File Contents Version : String) (d1 d2 : DiagnosticStatus) :
    (addDocument s File Contents Version).trace =
      s.trace ++
        [Effect.publishDiagnostics
           { uri := canonicalize File, diagnostics := [],
             version := decodeVersion Version },
         Effect.addDraft File Version Contents,
         Effect.schedParse Contents File ((decodeVersion Version).getD 0),
         Effect.forkEvalWorker (s.WorkspaceVersion + 1)] ∧
    (addDocument { s with DiagStatus := d1 } File Contents Version).trace =
      (addDocument { s with DiagStatus := d2 } File Contents Version).trace ∧
    (∀ o : DidOpenTextDocumentParams,
      onDocumentDidOpen s o =
        addDocument s o.file o.text (encodeVersion o.version)) ∧
    (∀ (p : DidChangeTextDocumentParams) (dr : Draft) (newCode : String),
      lookupDraft s.drafts p.file = some dr →
      applyChanges dr.Contents p.contentChanges = .ok newCode →
      onDocumentDidChange s p =
        addDocument s p.file newCode (encodeVersion p.version)) := by
  refine ⟨addDocument_trace s hC File Contents Version, ?_, ?_, ?_⟩
  · rw [addDocument_trace _ (by simpa using hC),
        addDocument_trace _ (by simpa using hC)]
  · intro o
    rfl
  · intro p dr newCode hdr hok
    simp only [onDocumentDidChange, hdr, hok]

theorem C10_clear_on_update_witness :
    (addDocument openState "a.nix" "y" "2").trace =
      openState.trace ++
        [Effect.publishDiagnostics
           { uri := canonicalize "a.nix", diagnostics := [],
             version := decodeVersion "2" },
         Effect.addDraft "a.nix" "2" "y",
         Effect.schedParse "y" "a.nix" ((decodeVersion "2").getD 0),
         Effect.forkEvalWorker (openState.WorkspaceVersion + 1)] ∧
    (addDocument { openState with DiagStatus := diagStX } "a.nix" "y" "2").trace =
      (addDocument { openState with
          DiagStatus := { WorkspaceVersion := 9, ClientDiags := [] } }
        "a.nix" "y" "2").trace ∧
    onDocumentDidOpen openState { file := "a.nix", text := "y", version := some 2 } =
      addDocument openState "a.nix" "y" (encodeVersion (some 2)) ∧
    onDocumentDidChange openState goodChangeParams =
      addDocument openState "a.nix" "ac" (encodeVersion (some 2)) := by
  have h := C10_clear_on_update openState rfl "a.nix" "y" "2" diagStX
    { WorkspaceVersion := 9, ClientDiags := [] }
  exact ⟨h.1, h.2.1,
         h.2.2.1 { file := "a.nix", text := "y", version := some 2 },
         h.2.2.2 goodChangeParams { Contents := "x", Version := "1" } "ac"
           (by decide) (by rfl)⟩

--------------------------------------------------------------------------
-- WorkerPool dispatch: reply selection

/-- Deterministic maximum-version selection over a reply list: keep the
earliest reply among those with the greatest version. -/
def pickLatest {R : Type} : List (R × Nat) → Option (R × Nat)
  | [] => none
  | r :: rs =>
    match pickLatest rs with
    | none => some r
    | some b => if b.2 > r.2 then some b else some r

/-- Modelled from the spec: latestMatchOr (declared outside the provided
sources) picks the reply from the worker with the greatest WorkspaceVersion
that satisfies the predicate, converts it to the response type, and falls
back to the default when no reply matches (spec section 4.4). -/
def latestMatchOr {R D : Type} (replies : List (R × Nat)) (pred : R → Bool)
    (dflt : D) (conv : R → D) : D :=
  match pickLatest (replies.filter (fun x => pred x.1)) with
  | some r => conv r.1
  | none => dflt

lemma pickLatest_eq_none {R : Type} (l : List (R × Nat)) :
    pickLatest l = none ↔ l = [] := by
  cases l with
  | nil => simp [pickLatest]
  | cons r rs =>
    simp only [pickLatest]
    cases pickLatest rs with
    | none => simp
    | some b =>
      by_cases h : b.2 > r.2 <;> simp [h]

lemma pickLatest_spec {R : Type} (l : List (R × Nat)) (hl : l ≠ []) :
    ∃ r, pickLatest l = some r ∧ r ∈ l ∧ ∀ x ∈ l, x.2 ≤ r.2 := by
  induction l with
  | nil => exact absurd rfl hl
  | cons r rs ih =>
    cases hrs : pickLatest rs with
    | none =>
      have hnil : rs = [] := (pickLatest_eq_none rs).mp hrs
      subst hnil
      exact ⟨r, by simp [pickLatest], by simp, by simp⟩
    | some b =>
      have hne : rs ≠ [] := by
        intro h
        rw [h] at hrs
        exact Option.noConfusion ((pickLatest_eq_none ([] : List (R × Nat))).mpr rfl ▸ hrs)
      obtain ⟨r0, hp, hmem, hmax⟩ := ih hne
      have hbr : b = r0 := by
        rw [hrs] at hp
        exact Option.some.inj hp
      subst hbr
      by_cases h : b.2 > r.2
      · refine ⟨b, ?_, List.mem_cons_of_mem r hmem, ?_⟩
        · simp [pickLatest, hrs, h]
        · intro x hx
          rcases List.mem_cons.mp hx with hx | hx
          · exact hx ▸ Nat.le_of_lt h
          · exact hmax x hx
      · refine ⟨r, ?_, List.mem_cons_self r rs, ?_⟩
        · simp [pickLatest, hrs, h]
        · intro x hx
          rcases List.mem_cons.mp hx with hx | hx
          · exact hx ▸ Nat.le_refl _
          · exact Nat.le_trans (hmax x hx) (Nat.not_lt.mp h)

lemma latestMatchOr_true {R D : Type} (replies : List (R × Nat)) (dflt : D)
    (conv : R → D) (hne : replies ≠ []) :
    ∃ r, r ∈ replies ∧ (∀ x ∈ replies, x.2 ≤ r.2) ∧
      latestMatchOr replies (fun _ => true) dflt conv = conv r.1 := by
  have hfil : replies.filter (fun x => true) = replies := List.filter_true replies
  obtain ⟨r, hp, hmem, hmax⟩ := pickLatest_spec replies hne
  refine ⟨r, hmem, hmax, ?_⟩
  unfold latestMatchOr
  rw [hfil, hp]

--------------------------------------------------------------------------
-- Request handlers (Controller.cpp:337-571, 664-716)

/-- Cursor classification by AST context (ParseAST::LocationContext). -/
inductive LocationContext where
  | AttrName
  | Value
  | Unknown
deriving DecidableEq

/-- The read-only interface of a published ParseAST that the handlers use;
the AST operations themselves live outside the provided sources, so they
are abstract function fields here. defAt models AST.def, which throws on
resolver failure (modelled as Except). -/
structure ParseAST where
  getContext : Position → LocationContext
  defAt : Position → Except String Nat
  defRange : Nat → Range

/-- Which worker pool a request was multiplexed to. -/
inductive Pool where
  | options
  | eval
deriving DecidableEq

/-- The possible shapes of a definition response. -/
inductive DefAnswer where
  | fromWorker (l : Location)
  | staticLoc (uri : String) (range : Range)
  | emptyObj
  | nullValue
deriving DecidableEq

/-- Server::onDefinition (Controller.cpp:396-440): ask the eval workers
first; with at least one reply, answer the freshest one; otherwise run the
static resolver on the AST of the current draft, answering the located
definition range on success and a neutral empty object on failure.
The branch answering nullValue on a missing draft is modelled from the
spec: withParseAST is declared outside the provided sources, and the error
taxonomy (spec section 7) answers UnknownPath with a logged neutral
value. -/
def onDefinition (s : ServerState) (evalReplies : List (Location × Nat))
    (uri : String) (pos : Position) (ast : ParseAST) : LspReply DefAnswer :=
  match evalReplies with
  | _ :: _ =>
    .response (latestMatchOr evalReplies (fun _ => true)
      DefAnswer.emptyObj DefAnswer.fromWorker)
  | [] =>
    match lookupDraft s.drafts uri with
    | some _ =>
      .response
        (match ast.defAt pos with
         | .ok d => DefAnswer.staticLoc uri (ast.defRange d)
         | .error _ => DefAnswer.emptyObj)
    | none => .response DefAnswer.nullValue

/-- CompletionFromOptions (Controller.cpp:504-529): consult the option
workers only when options are enabled, answering the last received reply;
also reports whether the option pool was consulted. The request payload
(the rsplit attribute-path heuristic) does not influence which reply is
chosen and is elided. -/
def CompletionFromOptions (optionsEnable : Bool)
    (optionReplies : List CompletionList) : Option CompletionList × List Pool :=
  if optionsEnable then (optionReplies.getLast?, [Pool.options])
  else (none, [])

/-- CompletionFromEval (Controller.cpp:531-539): consult the eval workers,
answering the last received reply. -/
def CompletionFromEval (evalReplies : List CompletionList) :
    Option CompletionList × List Pool :=
  (evalReplies.getLast?, [Pool.eval])

/-- The completion action run under withAST (Controller.cpp:496-562):
classify the cursor and select the worker pools accordingly; in the
Unknown case concatenate the option items with the eval items and mark the
list incomplete. -/
def completionAction (ast : ParseAST) (pos : Position) (optionsEnable : Bool)
    (optionReplies evalReplies : List CompletionList) :
    Option CompletionList × List Pool :=
  match ast.getContext pos with
  | .AttrName => CompletionFromOptions optionsEnable optionReplies
  | .Value => CompletionFromEval evalReplies
  | .Unknown =>
    let o := CompletionFromOptions optionsEnable optionReplies
    let e := CompletionFromEval evalReplies
    (some { isIncomplete := true,
            items := (match o.1 with | some l => l.items | none => []) ++
                     (match e.1 with | some l => l.items | none => []) },
     o.2 ++ e.2)

/-- Server::onCompletion (Controller.cpp:491-571): with a stored draft the
action result is replied; with no stored draft the handler replies a
JSON-RPC error (Controller.cpp:569). -/
def onCompletion (s : ServerState) (file : String) (pos : Position)
    (ast : ParseAST) (optionReplies evalReplies : List CompletionList) :
    LspReply (Option CompletionList) :=
  match lookupDraft s.drafts file with
  | some _ =>
    .response (completionAction ast pos s.optionsEnable optionReplies evalReplies).1
  | none => .error "requested completion list on unknown draft path"

/-- Server::onHover (Controller.cpp:476-489): reply the freshest non-empty
hover among the eval-worker replies, or the default-constructed (empty)
hover. The draft store is never consulted. -/
def onHover (evalReplies : List (Hover × Nat)) : LspReply Hover :=
  .response (latestMatchOr evalReplies
    (fun h => h.contents.length != 0) { contents := "" } (fun h => h))

--------------------------------------------------------------------------
-- Server::onDecalration (Controller.cpp:337-394)

/-- The separator set of onDecalration (Controller.cpp:365). -/
def Punc : List Char := ['\r', '\n', '\t', ' ', ';']

/-- The IsPunc lambda of onDecalration (Controller.cpp:367-373). -/
def IsPunc (c : Char) : Bool := Punc.contains c

/-- 2 to the 64, the modulus of size_t arithmetic. -/
def U64 : Nat := 18446744073709551616

/-- llvm StringRef indexing: reading past the end is out of bounds. -/
def charAt (code : List Char) (i : Nat) : Except Unit Char :=
  if h : i < code.length then .ok (code.get ⟨i, h⟩) else .error ()

/-- Why a run of the leftward cursor loop stopped abnormally. -/
inductive LoopStop where
  | oob
  | fuelOut
deriving DecidableEq

/-- The leftward loop of onDecalration (Controller.cpp:375):
for (; From >= 0 && !IsPunc(Code[From]);) From--;
From has type size_t, so the guard From >= 0 is vacuously true and the
decrement wraps modulo 2^64; the loop only ever stops on a separator
character or by reading out of bounds. Fuel makes the recursion total;
expandLeft_fuel below shows the fuel bound used by extractAttrPath is
never the reason for stopping. -/
def expandLeft (code : List Char) : Nat → Nat → Except LoopStop Nat
  | 0, _ => .error LoopStop.fuelOut
  | fuel + 1, f =>
    match charAt code f with
    | .error _ => .error LoopStop.oob
    | .ok c =>
      if IsPunc c then .ok f
      else expandLeft code fuel ((f + (U64 - 1)) % U64)

/-- The rightward loop of onDecalration (Controller.cpp:377):
for (; To < Code.size() && !IsPunc(Code[To]);) To++;
The bound check comes first, so this loop is safe; it runs at most
code.length - t steps, so fuel code.length + 1 is always enough at the
call site. -/
def expandRight (code : List Char) : Nat → Nat → Nat
  | 0, t => t
  | fuel + 1, t =>
    if h : t < code.length then
      if IsPunc (code.get ⟨t, h⟩) then t else expandRight code fuel (t + 1)
    else t

/-- StringRef::trim over the separator set: drop separators from both
ends. -/
def trimPunc (s : List Char) : List Char :=
  ((s.dropWhile IsPunc).reverse.dropWhile IsPunc).reverse

/-- The attribute-path extraction of onDecalration (Controller.cpp:361-380):
expand left and right from the cursor offset, take
Code.substr(From, To - From), and trim the separators. Except propagates
the out-of-bounds read of the leftward loop. -/
def extractAttrPath (code : List Char) (Offset : Nat) :
    Except LoopStop (List Char) :=
  match expandLeft code (Offset + 2) Offset with
  | .error e => .error e
  | .ok From =>
    let To := expandRight code (code.length + 1) Offset
    .ok (trimPunc ((code.drop From).take (To - From)))

/-- Modelled from the spec: positionToOffset is part of the external
lspserver collaborator; it converts a zero-based line/character position
into a byte offset and fails when the position lies outside the
document. -/
def positionToOffset : List Char → Nat → Nat → Option Nat
  | cs, 0, ch =>
    if ch ≤ (cs.takeWhile (fun c => c != '\n')).length then some ch else none
  | [], _ + 1, _ => none
  | c :: cs, l + 1, ch =>
    if c = '\n' then (positionToOffset cs l ch).map (fun o => o + 1)
    else (positionToOffset cs (l + 1) ch).map (fun o => o + 1)

/-- How a run of onDecalration ends: a reply to the client, or a crash
inside the handler. -/
inductive DeclResult where
  | reply (v : Option Location)
  | crash
deriving DecidableEq

/-- Server::onDecalration (Controller.cpp:337-394) together with a flag
recording whether the option workers were consulted. With options disabled
the handler replies null immediately. Otherwise it reads the draft through
DraftMgr.getDraft(...)->Contents with no null check (crash on an unknown
path), converts the position (ExpectedOffset.get() is called even when the
conversion failed: crash), extracts the attribute path (the leftward loop
can read out of bounds: crash), asks the option workers and replies the
last reply, or the default null when no reply arrived. -/
def onDecalration (s : ServerState) (file : String) (pos : Position)
    (optionReplies : List Location) : DeclResult × Bool :=
  if s.optionsEnable = false then (DeclResult.reply none, false)
  else
    match lookupDraft s.drafts file with
    | none => (DeclResult.crash, false)
    | some dr =>
      match positionToOffset dr.Contents.toList pos.line pos.character with
      | none => (DeclResult.crash, false)
      | some Offset =>
        match extractAttrPath dr.Contents.toList Offset with
        | .error _ => (DeclResult.crash, false)
        | .ok _ =>
          match optionReplies.getLast? with
          | none => (DeclResult.reply none, true)
          | some l => (DeclResult.reply (some l), true)

--------------------------------------------------------------------------
-- Server::onFormat (Controller.cpp:664-716)

/-- INT_MAX, the coordinate of the full-document edit range. -/
def INT_MAX : Nat := 2147483647

/-- Server::onFormat (Controller.cpp:664-716). fmtRun models the external
formatter subprocess launched on the draft: some formatted text, or none
when the subprocess could not be summoned (the catch branches). timedOut
models the expiry of the 1-second wait_for deadline, in which case the
future result is never read. On a missing result the handler replies an
error; otherwise a single text edit spanning (0,0) to
(INT_MAX, INT_MAX). -/
def onFormat (draft : String) (fmtRun : String → Option String)
    (timedOut : Bool) : Except String (List TextEdit) :=
  let FormattedCode : Option String := if timedOut then none else fmtRun draft
  match FormattedCode with
  | some code =>
    .ok [{ range := { start := { line := 0, character := 0 },
                      finish := { line := INT_MAX, character := INT_MAX } },
           newText := code }]
  | none => .error "no formatting response received"

/-- Whether an Except value is a success. -/
def exceptIsOk {ε α : Type} : Except ε α → Bool
  | .ok _ => true
  | .error _ => false

--------------------------------------------------------------------------
-- Claims C4, C5, C6, C7, C8

/-- A concrete controller state whose draft store is empty. -/
def noDraftState : ServerState := baseState

/-- A parse AST whose static resolver always succeeds at definition 0. -/
def astOk : ParseAST :=
  { getContext := fun _ => LocationContext.Unknown,
    defAt := fun _ => .ok 0,
    defRange := fun _ =>
      { start := { line := 0, character := 4 },
        finish := { line := 0, character := 5 } } }

/-- C4 counterexample: a completion request on a path with no stored draft
is answered with a user-visible JSON-RPC error, not a neutral value
(Controller.cpp:569). -/
theorem C4_counterexample :
    onCompletion noDraftState "b.nix" { line := 0, character := 0 } astOk [] [] =
      LspReply.error "requested completion list on unknown draft path" ∧
    (onCompletion noDraftState "b.nix" { line := 0, character := 0 }
        astOk [] []).isResponse = false := by
  exact ⟨rfl, rfl⟩

/-- C4 (amended): on a path with no stored draft, hover replies are never
user-visible errors (and are the neutral empty hover when no worker reply
is non-empty, since hover never consults the draft store), and a definition
request with no worker reply is answered with a neutral null; but a
completion request is answered with a user-visible error, and a declaration
request answers null only when option support is disabled — with option
support enabled the handler dereferences the missing draft and crashes. -/
theorem C4_unknown_path (s : ServerState) (file : String) (pos : Position)
    (ast : ParseAST) (oR eR : List CompletionList) (hR : List (Hover × Nat))
    (lR : List Location)
    (hnone : lookupDraft s.drafts file = none) :
    onCompletion s file pos ast oR eR =
      LspReply.error "requested completion list on unknown draft path" ∧
    (onHover hR).isResponse = true ∧
    (hR = [] → onHover hR = LspReply.response { contents := "" }) ∧
    (s.optionsEnable = false →
      onDecalration s file pos lR = (DeclResult.reply none, false)) ∧
    (s.optionsEnable = true →
      onDecalration s file pos lR = (DeclResult.crash, false)) ∧
    onDefinition s [] file pos ast = LspReply.response DefAnswer.nullValue := by
  refine ⟨?_, ?_, ?_, ?_, ?_, ?_⟩
  · simp only [onCompletion, hnone]
  · rfl
  · intro h
    subst h
    rfl
  · intro h
    simp [onDecalration, h]
  · intro h
    simp only [onDecalration, h]
    simp [hnone]
  · simp only [onDefinition, hnone]

theorem C4_unknown_path_witness :
    onCompletion noDraftState "b.nix" { line := 0, character := 1 } astOk [] [] =
      LspReply.error "requested completion list on unknown draft path" ∧
    (onHover []).isResponse = true ∧
    onHover [] = LspReply.response { contents := "" } ∧
    onDecalration { noDraftState with optionsEnable := false } "b.nix"
      { line := 0, character := 1 } [] = (DeclResult.reply none, false) ∧
    onDecalration noDraftState "b.nix" { line := 0, character := 1 } [] =
      (DeclResult.crash, false) ∧
    onDefinition noDraftState [] "b.nix" { line := 0, character := 1 } astOk =
      LspReply.response DefAnswer.nullValue := by
  have h1 := C4_unknown_path noDraftState "b.nix" { line := 0, character := 1 }
    astOk [] [] [] [] (by decide)
  have h2 := C4_unknown_path { noDraftState with optionsEnable := false }
    "b.nix" { line := 0, character := 1 } astOk [] [] [] [] (by decide)
  exact ⟨h1.1, h1.2.1, h1.2.2.1 rfl, h2.2.2.2.1 rfl, h1.2.2.2.2.1 rfl,
         h1.2.2.2.2.2⟩

/-- C5: a definition request first consults the eval workers; with at
least one reply it answers one of the replies, whose version is at least
that of every reply; with no reply and a stored draft it runs the static
resolver, answering a location made of the request URI and the defRange of
the resolved definition on success, and the neutral empty object on any
resolver failure; in every case the answer is a response, never an
error visible in the editor. -/
theorem C5_definition (s : ServerState) (uri : String) (pos : Position)
    (ast : ParseAST) (replies : List (Location × Nat)) (dr : Draft) :
    (replies ≠ [] → ∃ r, r ∈ replies ∧ (∀ x ∈ replies, x.2 ≤ r.2) ∧
      onDefinition s replies uri pos ast =
        LspReply.response (DefAnswer.fromWorker r.1)) ∧
    (lookupDraft s.drafts uri = some dr →
      (∀ d, ast.defAt pos = .ok d →
        onDefinition s [] uri pos ast =
          LspReply.response (DefAnswer.staticLoc uri (ast.defRange d))) ∧
      (∀ e, ast.defAt pos = .error e →
        onDefinition s [] uri pos ast = LspReply.response DefAnswer.emptyObj)) ∧
    (onDefinition s replies uri pos ast).isResponse = true := by
  refine ⟨?_, ?_, ?_⟩
  · intro hne
    obtain ⟨r, hmem, hmax, heq⟩ :=
      latestMatchOr_true replies DefAnswer.emptyObj DefAnswer.fromWorker hne
    refine ⟨r, hmem, hmax, ?_⟩
    cases replies with
    | nil => exact absurd rfl hne
    | cons a rs =>
      simp only [onDefinition]
      rw [heq]
  · intro hdr
    constructor
    · intro d hd
      simp only [onDefinition, hdr, hd]
    · intro e he
      simp only [onDefinition, hdr, he]
  · cases replies with
    | nil =>
      simp only [onDefinition]
      cases lookupDraft s.drafts uri with
      | none => rfl
      | some dr2 =>
        cases ast.defAt pos with
        | ok d => rfl
        | error e => rfl
    | cons a rs => rfl

/-- A state with a stored draft for a.nix (same as openState). -/
def defnReplyA : Location × Nat :=
  ({ uri := "w.nix",
     range := { start := { line := 1, character := 0 },
                finish := { line := 1, character := 3 } } }, 1)

def defnReplyB : Location × Nat :=
  ({ uri := "v.nix",
     range := { start := { line := 2, character := 0 },
                finish := { line := 2, character := 3 } } }, 5)

theorem C5_definition_witness :
    (∃ r, r ∈ [defnReplyA, defnReplyB] ∧
      (∀ x ∈ [defnReplyA, defnReplyB], x.2 ≤ r.2) ∧
      onDefinition openState [defnReplyA, defnReplyB] "a.nix"
        { line := 0, character := 0 } astOk =
          LspReply.response (DefAnswer.fromWorker r.1)) ∧
    onDefinition openState [] "a.nix" { line := 0, character := 0 } astOk =
      LspReply.response
        (DefAnswer.staticLoc "a.nix"
          (astOk.defRange 0)) := by
  have h1 := C5_definition openState "a.nix" { line := 0, character := 0 }
    astOk [defnReplyA, defnReplyB] { Contents := "x", Version := "1" }
  have h2 := C5_definition openState "a.nix" { line := 0, character := 0 }
    astOk [] { Contents := "x", Version := "1" }
  exact ⟨h1.1 (by simp), (h2.2.1 (by decide)).1 0 rfl⟩

/-- C6: the completion cursor is classified into exactly one of AttrName,
Value and Unknown; in the AttrName case the eval pool is never consulted
(and with options enabled exactly the option pool is); in the Value case
exactly the eval pool is consulted; in the Unknown case the option items
are concatenated with the eval items into one list whose isIncomplete flag
is true, and the consulted pools are those of both helpers. -/
theorem C6_completion_contexts (ast : ParseAST) (pos : Position)
    (enable : Bool) (oR eR : List CompletionList) :
    (ast.getContext pos = LocationContext.AttrName ∨
     ast.getContext pos = LocationContext.Value ∨
     ast.getContext pos = LocationContext.Unknown) ∧
    (ast.getContext pos = LocationContext.AttrName →
      (completionAction ast pos enable oR eR).2.contains Pool.eval = false ∧
      (enable = true → (completionAction ast pos enable oR eR).2 = [Pool.options])) ∧
    (ast.getContext pos = LocationContext.Value →
      (completionAction ast pos enable oR eR).2 = [Pool.eval] ∧
      (completionAction ast pos enable oR eR).1 = eR.getLast?) ∧
    (ast.getContext pos = LocationContext.Unknown →
      (completionAction ast pos enable oR eR).1 =
        some { isIncomplete := true,
               items :=
                 (match (CompletionFromOptions enable oR).1 with
                  | some l => l.items
                  | none => []) ++
                 (match (CompletionFromEval eR).1 with
                  | some l => l.items
                  | none => []) } ∧
      (completionAction ast pos enable oR eR).2 =
        (CompletionFromOptions enable oR).2 ++ (CompletionFromEval eR).2) := by
  refine ⟨?_, ?_, ?_, ?_⟩
  · cases h : ast.getContext pos
    · exact Or.inl rfl
    · exact Or.inr (Or.inl rfl)
    · exact Or.inr (Or.inr rfl)
  · intro h
    simp only [completionAction, h]
    cases enable with
    | false => exact ⟨rfl, fun hf => Bool.noConfusion hf⟩
    | true => exact ⟨rfl, fun _ => rfl⟩
  · intro h
    simp only [completionAction, h]
    exact ⟨rfl, rfl⟩
  · intro h
    refine ⟨?_, ?_⟩ <;> simp [completionAction, h]

/-- Parse ASTs pinning the three completion contexts. -/
def astAttr : ParseAST := { astOk with getContext := fun _ => LocationContext.AttrName }

def astValue : ParseAST := { astOk with getContext := fun _ => LocationContext.Value }

def listO : CompletionList := { isIncomplete := false, items := ["o1", "o2"] }

def listE : CompletionList := { isIncomplete := false, items := ["e1"] }

theorem C6_completion_contexts_witness :
    ((completionAction astAttr { line := 0, character := 0 } true [listO] [listE]).2.contains
        Pool.eval = false ∧
      (completionAction astAttr { line := 0, character := 0 } true [listO] [listE]).2 =
        [Pool.options]) ∧
    ((completionAction astValue { line := 0, character := 0 } true [listO] [listE]).2 =
        [Pool.eval] ∧
      (completionAction astValue { line := 0, character := 0 } true [listO] [listE]).1 =
        [listE].getLast?) ∧
    ((completionAction astOk { line := 0, character := 0 } true [listO] [listE]).1 =
        some { isIncomplete := true,
               items :=
                 (match (CompletionFromOptions true [listO]).1 with
                  | some l => l.items
                  | none => []) ++
                 (match (CompletionFromEval [listE]).1 with
                  | some l => l.items
                  | none => []) } ∧
      (completionAction astOk { line := 0, character := 0 } true [listO] [listE]).2 =
        (CompletionFromOptions true [listO]).2 ++ (CompletionFromEval [listE]).2) := by
  have hA := C6_completion_contexts astAttr { line := 0, character := 0 }
    true [listO] [listE]
  have hV := C6_completion_contexts astValue { line := 0, character := 0 }
    true [listO] [listE]
  have hU := C6_completion_contexts astOk { line := 0, character := 0 }
    true [listO] [listE]
  exact ⟨⟨(hA.2.1 rfl).1, (hA.2.1 rfl).2 rfl⟩, hV.2.2.1 rfl, hU.2.2.2 rfl⟩

/-- A controller state with options disabled and the draft abc open. -/
def declDisabledState : ServerState :=
  { baseState with
      optionsEnable := false
      drafts := [("a.nix", { Contents := "abc", Version := "1" })] }

/-- A controller state with options enabled and the draft abc open. -/
def declEnabledState : ServerState :=
  { baseState with
      drafts := [("a.nix", { Contents := "abc", Version := "1" })] }

/-- C7: the attribute-path extraction of onDecalration matches the claim on
inputs that have a separator at or before the cursor (for the document
a b;c with the cursor on b it yields the trimmed substring b), and with
option support disabled the request is answered null without consulting the
option workers; but on a document with no separator at or before the
cursor (document abc, cursor offset 1) the unsigned cursor of the leftward
loop wraps below zero and the handler reads Code at index 2^64 - 1, out of
bounds, instead of producing the path abc: the guard From >= 0 of
Controller.cpp:375 is vacuous for size_t, which is a coding slip. -/
theorem C7_attrpath_extraction :
    extractAttrPath "abc".toList 1 = Except.error LoopStop.oob ∧
    onDecalration declEnabledState "a.nix" { line := 0, character := 1 } [] =
      (DeclResult.crash, false) ∧
    extractAttrPath "a b;c".toList 2 = Except.ok "b".toList ∧
    onDecalration declDisabledState "a.nix" { line := 0, character := 1 } [] =
      (DeclResult.reply none, false) := by
  exact ⟨rfl, rfl, rfl, rfl⟩

/-- C8: a formatting request replies an error exactly when the 1-second
deadline elapsed or the formatter subprocess failed; otherwise it replies
exactly one text edit spanning (0,0) to (INT_MAX, INT_MAX) carrying the
formatted text. -/
theorem C8_format (draft : String) (fmtRun : String → Option String)
    (timedOut : Bool) :
    (timedOut = true →
      onFormat draft fmtRun timedOut = .error "no formatting response received") ∧
    (fmtRun draft = none →
      onFormat draft fmtRun timedOut = .error "no formatting response received") ∧
    (∀ code, timedOut = false → fmtRun draft = some code →
      onFormat draft fmtRun timedOut =
        .ok [{ range := { start := { line := 0, character := 0 },
                          finish := { line := INT_MAX, character := INT_MAX } },
               newText := code }]) ∧
    (exceptIsOk (onFormat draft fmtRun timedOut) = false ↔
      (timedOut = true ∨ fmtRun draft = none)) := by
  refine ⟨?_, ?_, ?_, ?_⟩
  · intro h
    subst h
    rfl
  · intro h
    cases timedOut with
    | true => rfl
    | false => simp [onFormat, h]
  · intro code ht hc
    subst ht
    simp [onFormat, hc]
  · cases timedOut with
    | true => simp [onFormat, exceptIsOk]
    | false =>
      cases h : fmtRun draft with
      | none => simp [onFormat, exceptIsOk, h]
      | some code => simp [onFormat, exceptIsOk, h]

theorem C8_format_witness :
    onFormat "x" (fun _ => some "fmt") true =
      .error "no formatting response received" ∧
    onFormat "x" (fun _ => none) false =
      .error "no formatting response received" ∧
    onFormat "x" (fun _ => some "fmt") false =
      .ok [{ range := { start := { line := 0, character := 0 },
                        finish := { line := INT_MAX, character := INT_MAX } },
             newText := "fmt" }] ∧
    (exceptIsOk (onFormat "x" (fun _ => some "fmt") false) = false ↔
      (false = true ∨ (fun _ => some "fmt") "x" = none)) := by
  have h1 := C8_format "x" (fun _ => some "fmt") true
  have h2 := C8_format "x" (fun _ => none) false
  have h3 := C8_format "x" (fun _ => some "fmt") false
  exact ⟨h1.1 rfl, h2.2.1 rfl, h3.2.2.1 "fmt" rfl rfl, h3.2.2.2⟩

--------------------------------------------------------------------------
-- RecursiveASTVisitor dispatch (Expr.h:48-96)

/-- Modelled from the spec: the node variants listed by Nodes.inc live
outside the provided sources; the variant list follows spec section 3
(literals, interpolated string, list, attribute set with a recursive flag,
let, lambda, application, selection, has-attribute, if, with, assert,
operator application, variable reference) plus the parser-injected error
node. Payloads are irrelevant to dispatch and are kept minimal. -/
inductive NixExpr where
  | ExprInt
  | ExprFloat
  | ExprString
  | ExprPath
  | ExprConcatStrings
  | ExprList
  | ExprAttrs (recursive : Bool)
  | ExprLet
  | ExprLambda
  | ExprCall
  | ExprSelect
  | ExprOpHasAttr
  | ExprIf
  | ExprWith
  | ExprAssert
  | ExprOpApp
  | ExprVar
  | ExprError
deriving DecidableEq

def isExprInt : NixExpr → Bool
  | .ExprInt => true
  | _ => false

def isExprFloat : NixExpr → Bool
  | .ExprFloat => true
  | _ => false

def isExprString : NixExpr → Bool
  | .ExprString => true
  | _ => false

def isExprPath : NixExpr → Bool
  | .ExprPath => true
  | _ => false

def isExprConcatStrings : NixExpr → Bool
  | .ExprConcatStrings => true
  | _ => false

def isExprList : NixExpr → Bool
  | .ExprList => true
  | _ => false

def isExprAttrs : NixExpr → Bool
  | .ExprAttrs _ => true
  | _ => false

def isExprLet : NixExpr → Bool
  | .ExprLet => true
  | _ => false

def isExprLambda : NixExpr → Bool
  | .ExprLambda => true
  | _ => false

def isExprCall : NixExpr → Bool
  | .ExprCall => true
  | _ => false

def isExprSelect : NixExpr → Bool
  | .ExprSelect => true
  | _ => false

def isExprOpHasAttr : NixExpr → Bool
  | .ExprOpHasAttr => true
  | _ => false

def isExprIf : NixExpr → Bool
  | .ExprIf => true
  | _ => false

def isExprWith : NixExpr → Bool
  | .ExprWith => true
  | _ => false

def isExprAssert : NixExpr → Bool
  | .ExprAssert => true
  | _ => false

def isExprOpApp : NixExpr → Bool
  | .ExprOpApp => true
  | _ => false

def isExprVar : NixExpr → Bool
  | .ExprVar => true
  | _ => false

def isExprError : NixExpr → Bool
  | .ExprError => true
  | _ => false

/-- The dynamic_cast chain generated from Nodes.inc in traverseExpr
(Expr.h:51-56): one recognizer per nix expression variant, tried in
order; the error-node cast (Expr.h:57-59) is tried after all of them. -/
def nixExprCasts : List (String × (NixExpr → Bool)) :=
  [("ExprInt", isExprInt), ("ExprFloat", isExprFloat),
   ("ExprString", isExprString), ("ExprPath", isExprPath),
   ("ExprConcatStrings", isExprConcatStrings), ("ExprList", isExprList),
   ("ExprAttrs", isExprAttrs), ("ExprLet", isExprLet),
   ("ExprLambda", isExprLambda), ("ExprCall", isExprCall),
   ("ExprSelect", isExprSelect), ("ExprOpHasAttr", isExprOpHasAttr),
   ("ExprIf", isExprIf), ("ExprWith", isExprWith),
   ("ExprAssert", isExprAssert), ("ExprOpApp", isExprOpApp),
   ("ExprVar", isExprVar)]

/-- RecursiveASTVisitor::traverseExpr (Expr.h:48-62): a null node is a
successful no-op; otherwise the first successful cast selects the traverse
function named after the variant; the error node is handled after the
generated chain; reaching the end of the chain is the
assert(false) of Expr.h:60, modelled as an error. -/
def traverseDispatch : Option NixExpr → Except Unit String
  | none => .ok "null"
  | some e =>
    match nixExprCasts.find? (fun c => c.2 e) with
    | some c => .ok c.1
    | none => if isExprError e then .ok "ExprError" else .error ()

/-- Names of all casts (the generated chain plus the error cast) that
succeed on a node. -/
def castsMatching (e : NixExpr) : List String :=
  ((nixExprCasts ++ [("ExprError", isExprError)]).filter
    (fun c => c.2 e)).map (fun c => c.1)

/-- Events observable during traverseExprError. -/
inductive VisitEvent where
  | visitError
  | descend
deriving DecidableEq

/-- RecursiveASTVisitor::traverseExprError (Expr.h:88-96): depending on
shouldTraversePostOrder the visit hook runs before or after the (absent)
child descent; the result is the hook result, and no child is ever
descended into. -/
def traverseExprError (postOrder visitResult : Bool) : Bool × List VisitEvent :=
  if postOrder = false then
    if visitResult = false then (false, [VisitEvent.visitError])
    else (true, [VisitEvent.visitError])
  else
    if visitResult = false then (false, [VisitEvent.visitError])
    else (true, [VisitEvent.visitError])

/-- C9: the visitor dispatch is total: on every node exactly one cast of
the chain (error node included) succeeds, the dispatch returns a traverse
selection and never reaches the missing-variant assertion, a null child is
traversed as a successful no-op, and the error-node traversal performs
exactly one visit and descends into no children, returning the visit
result. -/
theorem C9_visitor_totality (e : NixExpr) (postOrder visitResult : Bool) :
    (castsMatching e).length = 1 ∧
    exceptIsOk (traverseDispatch (some e)) = true ∧
    traverseDispatch none = Except.ok "null" ∧
    traverseExprError postOrder visitResult =
      (visitResult, [VisitEvent.visitError]) := by
  refine ⟨?_, ?_, rfl, ?_⟩
  · cases e <;> rfl
  · cases e <;> rfl
  · cases postOrder <;> cases visitResult <;> rfl
